import Mathlib

/-!
Verification development for `gitlab_audit_export.py` (GitLab-Audit-Log-Exporter).

The Python source is shallowly embedded:
* Python strings are `List Char` (`Str`); `None`-or-string values are `Option Str`.
* Instants (`datetime` values) are abstracted as integers `DT` with the usual
  linear order; only comparability matters to the program logic.
* The two external parsing libraries (`dateutil.parser` and
  `datetime.fromisoformat`) are parameters of the embedding: `dateutil` may be
  absent (`Option DtParser`), matching the guarded `dateutil` module load
  at the top of the source.  A small executable stand-in `isoParseModel`
  (strict `YYYY-MM-DD`) is used to instantiate them at concrete inputs.
* Fallible Python code is modelled with `Except Unit`: `.error ()` marks a
  raised exception.
-/

namespace GitLabAudit

/-- Python strings, as lists of characters. -/
abbrev Str := List Char

/-- Coerce a Lean string literal to the string type of the embedding. -/
def str (s : String) : Str := s.data

/-- Instants (`datetime` objects) abstracted to integers; only the linear
order is used by the program. -/
abbrev DT := Int

/-- Python truthiness of an optional string: `None` and `""` are falsy. -/
def isFalsy : Option Str → Bool
  | none => true
  | some s => s = []

/-- Python `x or y` on optional strings: `x` when truthy, else `y`. -/
def pyOr (a b : Option Str) : Option Str :=
  match a with
  | none => b
  | some s => if s = [] then b else a

/-- The optional `dateutil.parser` capability (`dtparser` in the source).
`parseNorm` stands for `dtparser.parse(s).isoformat()` as used by
`normalize_date`; `parseDayfirst` stands for `dtparser.parse(s, dayfirst=True)`
as used by `parse_date_any`.  `none` results model a raised parse exception. -/
structure DtParser where
  parseNorm : Str → Option Str
  parseDayfirst : Str → Option DT

/-- The external parsing capabilities available to the program:
`dtparser` is `none` when `python-dateutil` is not installed;
`fromisoformat` stands for `datetime.fromisoformat` (`none` = raised). -/
structure Parsers where
  dtparser : Option DtParser
  fromisoformat : Str → Option DT

/-- Model of `normalize_date(s)`: empty string for falsy input; with `dateutil`
available, `dtparser.parse(s).isoformat()`, returning `s` unchanged on a parse
exception; without `dateutil`, `s` unchanged.  (The `isinstance(s, datetime)`
branch is dead in this program: every argument is a JSON string or `None`.) -/
def normalize_date (p : Parsers) (s : Option Str) : Str :=
  match s with
  | none => []
  | some t =>
    if t = [] then []
    else
      match p.dtparser with
      | some dp =>
        match dp.parseNorm t with
        | some r => r
        | none => t
      | none => t

/-- Model of `s.replace('/', '-')`. -/
def subSlash (s : Str) : Str :=
  s.map (fun c => if c = '/' then '-' else c)

/-- Model of `parse_date_any(s)`: `None` for falsy input; substitute `/` with `-`;
if `dateutil` is available, return `dtparser.parse(s, dayfirst=True)`, and on
its failure return `None` (the `except` clause is `return None`, so the ISO
fallback below is NOT reached in this case); only when `dateutil` is absent,
fall back to `datetime.fromisoformat`. -/
def parse_date_any (p : Parsers) (s : Str) : Option DT :=
  if s = [] then none
  else
    let s2 := subSlash s
    match p.dtparser with
    | some dp => dp.parseDayfirst s2
    | none => p.fromisoformat s2

/-- The `if end and dt > end: return False` tail of `within_range`.
Comparing `None` (`dt = none`) with a set bound raises `TypeError`. -/
def endCheck (dt : Option DT) (e : Option DT) : Except Unit Bool :=
  match e with
  | none => .ok true
  | some b =>
    match dt with
    | none => .error ()
    | some d => if b < d then .ok false else .ok true

/-- The `if start and dt < start: return False` step of `within_range`,
followed by `endCheck`.  Comparing `None` with a set bound raises
`TypeError`. -/
def startCheck (dt : Option DT) (s e : Option DT) : Except Unit Bool :=
  match s with
  | none => endCheck dt e
  | some a =>
    match dt with
    | none => .error ()
    | some d => if d < a then .ok false else endCheck dt e

/-- Model of `within_range(ts, start, end)`.  A falsy timestamp returns
`False if (start or end) else True`.  Otherwise `dt = parse_date_any(ts)` is
computed — the surrounding `try/except` in the source is dead code, because
`parse_date_any` catches internally and returns `None` instead of raising —
and the two bound comparisons run, raising `TypeError` when `dt` is `None`
and a bound is set. -/
def within_range (p : Parsers) (ts : Option Str) (s e : Option DT) : Except Unit Bool :=
  if isFalsy ts then
    .ok (decide (s = none) && decide (e = none))
  else
    startCheck (parse_date_any p (ts.getD [])) s e

/-- Executable stand-in for strict ISO-8601 parsing of `YYYY-MM-DD`,
used to instantiate the external parsers at concrete inputs.  The value
`y*10000 + m*100 + d` is order-preserving on calendar dates. -/
def isoParseModel (s : Str) : Option DT :=
  match s with
  | [y1, y2, y3, y4, '-', m1, m2, '-', d1, d2] =>
    if (y1.isDigit && y2.isDigit && y3.isDigit && y4.isDigit &&
        m1.isDigit && m2.isDigit && d1.isDigit && d2.isDigit) then
      let y := ((y1.toNat - 48) * 1000 + (y2.toNat - 48) * 100 +
                (y3.toNat - 48) * 10 + (y4.toNat - 48) : Int)
      let m := ((m1.toNat - 48) * 10 + (m2.toNat - 48) : Int)
      let d := ((d1.toNat - 48) * 10 + (d2.toNat - 48) : Int)
      if 1 ≤ m ∧ m ≤ 12 ∧ 1 ≤ d ∧ d ≤ 31 then
        some (y * 10000 + m * 100 + d)
      else none
    else none
  | _ => none

/-- The parser configuration with `python-dateutil` absent. -/
def pNone : Parsers := ⟨none, isoParseModel⟩

/-- Decidable equality on `Except`, for evaluating the embedding at
concrete inputs. -/
instance {ε α : Type} [DecidableEq ε] [DecidableEq α] : DecidableEq (Except ε α) := fun a b =>
  match a, b with
  | .error x, .error y =>
    if h : x = y then isTrue (by rw [h]) else isFalse (by intro hc; cases hc; exact h rfl)
  | .ok x, .ok y =>
    if h : x = y then isTrue (by rw [h]) else isFalse (by intro hc; cases hc; exact h rfl)
  | .error _, .ok _ => isFalse (by intro hc; cases hc)
  | .ok _, .error _ => isFalse (by intro hc; cases hc)

/-- A canonical audit-event row.  Every dict literal in the source writes all
nine keys, so the record type has all nine fields; a field holds `none`
exactly when the Python value is `None` (a `.get` without default on a
missing key). -/
structure Row where
  source : Option Str
  action_type : Option Str
  user_name : Option Str
  user_email : Option Str
  timestamp : Option Str
  ref : Option Str
  commit_sha : Option Str
  message : Option Str
  url : Option Str
deriving DecidableEq, Repr

/-- A commit object from `GET /repository/commits`, restricted to the keys
the program reads; `none` = key absent. -/
structure RCommit where
  created_at : Option Str
  committed_date : Option Str
  author_name : Option Str
  author_email : Option Str
  id : Option Str
  message : Option Str
  web_url : Option Str
deriving DecidableEq, Repr

/-- The `commit` sub-object of a branch, restricted to the keys read. -/
structure RBranchCommit where
  committed_date : Option Str
  id : Option Str
  message : Option Str
deriving DecidableEq, Repr

/-- A branch object from `GET /repository/branches`, restricted to the keys
read; `commit = none` models an absent `commit` key (`b.get("commit", {})`). -/
structure RBranch where
  commit : Option RBranchCommit
  name : Option Str
  web_url : Option Str
deriving DecidableEq, Repr

/-- The `author` sub-object of a merge request. -/
structure RAuthor where
  name : Option Str
deriving DecidableEq, Repr

/-- A merge-request object from `GET /merge_requests`, restricted to the
keys read. -/
structure RMR where
  updated_at : Option Str
  state : Option Str
  author : Option RAuthor
  source_branch : Option Str
  target_branch : Option Str
  sha : Option Str
  title : Option Str
  web_url : Option Str
deriving DecidableEq, Repr

/-- Python f-string interpolation of a possibly-`None` value:
`None` prints as the text `None`. -/
def fstr (o : Option Str) : Str :=
  match o with
  | none => str "None"
  | some s => s

/-- Model of `s.replace('\n', ' ')` (single-character replace = map). -/
def replaceNl (s : Str) : Str :=
  s.map (fun c => if c = '\n' then ' ' else c)

/-- The row built for one remote commit (the dict literal at the `gitlab_commit`
append site), given the already-normalized timestamp. -/
def commitRow (ts : Str) (c : RCommit) : Row where
  source := some (str "gitlab_commit")
  action_type := some (str "commit")
  user_name := c.author_name
  user_email := c.author_email
  timestamp := some ts
  ref := some []
  commit_sha := c.id
  message := some (replaceNl (c.message.getD []))
  url := some (c.web_url.getD [])

/-- The row built for one remote branch (the `gitlab_branch` append site);
`bc` is `b.get("commit", {})`. -/
def branchRow (ts : Str) (b : RBranch) (bc : RBranchCommit) : Row where
  source := some (str "gitlab_branch")
  action_type := some (str "branch")
  user_name := some []
  user_email := some []
  timestamp := some ts
  ref := b.name
  commit_sha := bc.id
  message := some (bc.message.getD [])
  url := some (b.web_url.getD [])

/-- The row built for one merge request (the `gitlab_merge_request` append
site).  `action_type` and `ref` are f-strings, so absent values print as the
text `None`. -/
def mrRow (ts : Str) (m : RMR) : Row where
  source := some (str "gitlab_merge_request")
  action_type := some (str "merge_request_" ++ fstr m.state)
  user_name := ((m.author.getD ⟨none⟩).name)
  user_email := some []
  timestamp := some ts
  ref := some (fstr m.source_branch ++ str "->" ++ fstr m.target_branch)
  commit_sha := some (m.sha.getD [])
  message := some (m.title.getD [])
  url := some (m.web_url.getD [])

/-- The `empty` default of `b.get("commit", {})`. -/
def emptyBranchCommit : RBranchCommit := ⟨none, none, none⟩

/-- One iteration of the commits loop: normalize the timestamp, test the
window (which may raise), and either skip or build the row. -/
def commitStep (p : Parsers) (s e : Option DT) (c : RCommit) : Except Unit (Option Row) :=
  let ts := normalize_date p (pyOr c.created_at c.committed_date)
  match within_range p (some ts) s e with
  | .error u => .error u
  | .ok false => .ok none
  | .ok true => .ok (some (commitRow ts c))

/-- One iteration of the branches loop. -/
def branchStep (p : Parsers) (s e : Option DT) (b : RBranch) : Except Unit (Option Row) :=
  let bc := b.commit.getD emptyBranchCommit
  let ts := normalize_date p bc.committed_date
  match within_range p (some ts) s e with
  | .error u => .error u
  | .ok false => .ok none
  | .ok true => .ok (some (branchRow ts b bc))

/-- One iteration of the merge-requests loop. -/
def mrStep (p : Parsers) (s e : Option DT) (m : RMR) : Except Unit (Option Row) :=
  let ts := normalize_date p m.updated_at
  match within_range p (some ts) s e with
  | .error u => .error u
  | .ok false => .ok none
  | .ok true => .ok (some (mrRow ts m))

/-- One iteration of either local loop: read `entry.get("timestamp")`, test
the window, keep or skip the entry unchanged. -/
def localStep (p : Parsers) (s e : Option DT) (r : Row) : Except Unit (Option Row) :=
  match within_range p r.timestamp s e with
  | .error u => .error u
  | .ok false => .ok none
  | .ok true => .ok (some r)

/-- The shared shape of the five collection loops:
`for x in xs: <step>; rows.append(...)` inside a `try`.  Returns the rows
appended and a flag recording whether an exception was raised (and caught)
mid-loop; on an exception the rows appended so far are kept by the caller,
because the source appends into the shared `rows` list in place. -/
def procList {α : Type} (f : α → Except Unit (Option Row)) : List α → List Row × Bool
  | [] => ([], false)
  | x :: xs =>
    match f x with
    | .error _ => ([], true)
    | .ok none => procList f xs
    | .ok (some r) =>
      let rest := procList f xs
      (r :: rest.1, rest.2)

/-- One full `try: items = fetch(); for ... except:` sub-step: a fetch that
raises contributes nothing (flag set); otherwise the loop runs. -/
def stepOf {α : Type} (f : α → Except Unit (Option Row)) : Except Unit (List α) → List Row × Bool
  | .error _ => ([], true)
  | .ok xs => procList f xs

/-- The relevant command-line arguments.  `months_back` is `Option Int`
(`argparse` `type=int`, absent = `None`); `has_remote` is the truthiness of
`args.gitlab_url and args.private_token`; `repo_path` the truthiness of
`args.repo_path`. -/
structure Args where
  months_back : Option Int
  date_range : Option (Str × Str)
  has_remote : Bool
  repo_path : Bool

/-- The outcomes of the three remote listings (`.error` = the HTTP call raised). -/
structure RemoteData where
  commits : Except Unit (List RCommit)
  branches : Except Unit (List RBranch)
  mrs : Except Unit (List RMR)

/-- The outcomes of the two local `git` invocations (`.error` = non-zero exit). -/
structure LocalData where
  gitLogOut : Except Unit Str
  reflogOut : Except Unit Str

/-- The filter-window computation at the top of `collect_data`:
`if args.months_back:` (0 and `None` are falsy) sets
`start = now - timedelta(days=30*months_back)`; `if args.date_range:`
overwrites both bounds with `parse_date_any` of the two endpoints (possibly
`None` when unparseable). -/
def computeWindow (p : Parsers) (now : DT) (a : Args) : Option DT × Option DT :=
  let w1 : Option DT × Option DT :=
    match a.months_back with
    | some n => if n = 0 then (none, none) else (some (now - 30 * n), none)
    | none => (none, none)
  match a.date_range with
  | some (f, t) => (parse_date_any p f, parse_date_any p t)
  | none => w1

/-- Python `s.split(sep)` (no limit): `n` separators yield `n+1` parts. -/
def pySplitAll (sep : Char) : Str → List Str
  | [] => [[]]
  | c :: cs =>
    if c = sep then [] :: pySplitAll sep cs
    else
      match pySplitAll sep cs with
      | [] => [[c]]
      | p :: ps => (c :: p) :: ps

/-- Split off the text before the first occurrence of `sep`, if any. -/
def splitFirst (sep : Char) : Str → Option (Str × Str)
  | [] => none
  | c :: cs =>
    if c = sep then some ([], cs)
    else
      match splitFirst sep cs with
      | none => none
      | some (pre, post) => some (c :: pre, post)

/-- Python `s.split(sep, maxsplit)`: split at the first `maxsplit`
occurrences of `sep` only, keeping the remainder whole. -/
def pySplit (sep : Char) : Nat → Str → List Str
  | 0, s => [s]
  | n + 1, s =>
    match splitFirst sep s with
    | none => [s]
    | some (pre, post) => pre :: pySplit sep n post

/-- Python `s.splitlines()` for `\n`-separated text (the only terminator in
`git` output): empty string gives no lines, and a trailing `\n` does not
produce a final empty line. -/
def splitlines (s : Str) : List Str :=
  if s = [] then []
  else
    let parts := pySplitAll '\n' s
    if s.getLast? = some '\n' then parts.dropLast else parts

/-- One line of `git log --pretty=format:%H|%an|%ae|%ad|%s` output:
`line.split('|', 4)`; fewer than five fields is skipped (`continue`). -/
def parseGitLogLine (line : Str) : Option Row :=
  match pySplit '|' 4 line with
  | [sha, an, ae, ad, msg] =>
    some { source := some (str "local_commit")
           action_type := some (str "commit")
           user_name := some an
           user_email := some ae
           timestamp := some ad
           ref := some []
           commit_sha := some sha
           message := some msg
           url := some [] }
  | _ => none

/-- Model of `parse_git_log`: parse every line of the `git log` output, skipping
malformed lines. -/
def parse_git_log (out : Str) : List Row :=
  (splitlines out).filterMap parseGitLogLine

/-- One line of `git reflog --date=iso` output: `line.split(' ', 1)`; the
first token is the sha, the rest (or `""`) the message; `timestamp`,
`user_name`, `user_email`, `ref`, `url` are always empty strings. -/
def parseReflogLine (line : Str) : Row :=
  let parts := pySplit ' ' 1 line
  let sha := parts.headD []
  let msg := (parts.drop 1).headD []
  { source := some (str "local_reflog")
    action_type := some (str "reflog")
    user_name := some []
    user_email := some []
    timestamp := some []
    ref := some []
    commit_sha := some sha
    message := some msg
    url := some [] }

/-- Model of `parse_reflog`: one row per line of the `git reflog` output. -/
def parse_reflog (out : Str) : List Row :=
  (splitlines out).map parseReflogLine

/-- Model of `collect_data(args)`: compute the window, then run the five collection
sub-steps in order — remote commits, branches, merge requests (only when
remote credentials are present), local commit log, local reflog (only when a
repository path is present) — each inside its own `try/except`, appending
into one shared list.  Project-path resolution only chooses the id passed to
the fetches and is absorbed into the `RemoteData` inputs. -/
def collect_data (p : Parsers) (now : DT) (a : Args) (rd : RemoteData) (ld : LocalData) :
    List Row :=
  let w := computeWindow p now a
  let s := w.1
  let e := w.2
  (if a.has_remote then
    (stepOf (commitStep p s e) rd.commits).1
      ++ (stepOf (branchStep p s e) rd.branches).1
      ++ (stepOf (mrStep p s e) rd.mrs).1
  else [])
    ++ (if a.repo_path then
      (stepOf (localStep p s e) (ld.gitLogOut.map parse_git_log)).1
        ++ (stepOf (localStep p s e) (ld.reflogOut.map parse_reflog)).1
    else [])

/-- The JSON body of one HTTP response as `_get` sees it after `r.json()`:
either a single object (`isinstance(data, dict)`) or a list of items. -/
inductive JsonBody (α β : Type) where
  | obj : α → JsonBody α β
  | arr : List β → JsonBody α β
deriving DecidableEq

/-- One HTTP response: `ok` status, JSON body, and
`r.headers.get("X-Next-Page") or ""` (`[]` = header absent or empty). -/
structure Resp (α β : Type) where
  ok : Bool
  body : JsonBody α β
  nextPage : Str
deriving DecidableEq

/-- What `_get` returns: a single object verbatim, or the concatenated
items of all fetched pages. -/
inductive GetResult (α β : Type) where
  | obj : α → GetResult α β
  | arr : List β → GetResult α β
deriving DecidableEq

/-- The `while True` pagination loop of `GitLabClient._get`, driven by the
trace of responses the server returns to successive requests (the `page`
query parameter is implicit in the trace order).  Returns the result paired
with the number of requests issued; `.error ()` models the
`raise RuntimeError` on a non-ok status; the outer `none` marks a trace too
short for the loop (it would issue another request).  The `per_page=100`
default and the 100 ms inter-page sleep do not affect the data flow. -/
def getLoop {α β : Type} : List (Resp α β) → List β → Option (Except Unit (GetResult α β × Nat))
  | [], _ => none
  | r :: rest, acc =>
    if r.ok = false then some (.error ())
    else
      match r.body with
      | .obj d => some (.ok (.obj d, 1))
      | .arr xs =>
        if r.nextPage = [] then some (.ok (.arr (acc ++ xs), 1))
        else
          match getLoop rest (acc ++ xs) with
          | none => none
          | some (.error u) => some (.error u)
          | some (.ok (res, n)) => some (.ok (res, n + 1))

/-- Model of `GitLabClient._get`, entered with an empty accumulator. -/
def GitLabClient_get {α β : Type} (resps : List (Resp α β)) :
    Option (Except Unit (GetResult α β × Nat)) :=
  getLoop resps []

/-- A row as `write_csv` receives it: a Python dict with string keys and
string values, as an association list (first binding wins; actual dicts have
distinct keys).  The `csv` module stringifies every cell, so only the string
image of each value is relevant to the output file. -/
abbrev CsvRow := List (Str × Str)

/-- Python `r.get(k)`: the first binding of `k`, if any. -/
def pyGet : CsvRow → Str → Option Str
  | [], _ => none
  | (k2, v) :: rest, k => if k2 = k then some v else pyGet rest k

/-- Python string `<` (lexicographic on code points). -/
def strLt : Str → Str → Bool
  | [], [] => false
  | [], _ :: _ => true
  | _ :: _, [] => false
  | a :: as_, b :: bs =>
    if a.toNat < b.toNat then true
    else if b.toNat < a.toNat then false
    else strLt as_ bs

/-- Python string `≤`, the order used by `sorted`. -/
def strLe (a b : Str) : Bool := !(strLt b a)

/-- Model of `sorted(set(k for r in rows for k in r.keys()))`: the deduplicated union
of all keys, sorted lexicographically. -/
def csvKeys (rows : List CsvRow) : List Str :=
  ((rows.map (fun r => r.map Prod.fst)).flatten.dedup).insertionSort
    (fun a b => strLe a b = true)

/-- One data row of the output file:
`w.writerow({k: r.get(k, "") for k in keys})` projects the dict onto the
header columns, substituting `""` for absent keys. -/
def writeRow (hdr : List Str) (r : CsvRow) : List Str :=
  hdr.map (fun k => (pyGet r k).getD [])

/-- Model of `write_csv(rows, path)`: `None` (nothing written) on an empty list,
else the header row (sorted key union) and one data row per event. -/
def write_csv (rows : List CsvRow) : Option (List Str × List (List Str)) :=
  if rows = [] then none
  else some (csvKeys rows, rows.map (writeRow (csvKeys rows)))

/-- Reading the file back (`csv.DictReader` semantics): the value of column
`k` in a data row is the cell aligned with `k` in the header row. -/
def readBack (hdr : List Str) (vals : List Str) (k : Str) : Option Str :=
  match hdr, vals with
  | [], _ => none
  | _ :: _, [] => none
  | h :: hs, v :: vs => if h = k then some v else readBack hs vs k

/-- Whether each set bound is satisfied (inclusively) by the instant `d`. -/
def boundOK (s e : Option DT) (d : DT) : Bool :=
  (match s with
   | none => true
   | some a => decide (a ≤ d)) &&
  (match e with
   | none => true
   | some b => decide (d ≤ b))

/-- Build the response for one list-valued page from its items and its
`X-Next-Page` header value. -/
def pageResp {α β : Type} (pr : List β × Str) : Resp α β :=
  ⟨true, .arr pr.1, pr.2⟩

/-- The five fields that every append site fills with a string (for some of
them via an explicit `""` default). -/
def fieldsOk (r : Row) : Prop :=
  r.source.isSome = true ∧ r.action_type.isSome = true ∧ r.timestamp.isSome = true
    ∧ r.message.isSome = true ∧ r.url.isSome = true

/-- All nine fields hold strings (no `None` anywhere). -/
def allFields (r : Row) : Prop :=
  fieldsOk r ∧ r.user_name.isSome = true ∧ r.user_email.isSome = true
    ∧ r.ref.isSome = true ∧ r.commit_sha.isSome = true

/-- A remote commit carrying a timestamp inside the window. -/
def cGood : RCommit := ⟨some (str "2025-06-15"), none, none, none, none, none, none⟩

/-- A remote commit whose timestamp does not parse. -/
def cBad : RCommit := ⟨some (str "garbage"), none, none, none, none, none, none⟩

/-- Arguments with an explicit date range, remote credentials, no local
repository. -/
def aRange : Args := ⟨none, some (str "2025-01-01", str "2025-12-31"), true, false⟩

/-- Remote data whose commits listing holds a good and a bad commit. -/
def rdCex : RemoteData := ⟨.ok [cGood, cBad], .ok [], .ok []⟩

/-- Local data with empty outputs. -/
def ldEmpty : LocalData := ⟨.ok [], .ok []⟩

/-- A commit object carrying none of the keys the program reads. -/
def cBare : RCommit := ⟨none, none, none, none, none, none, none⟩

/-- Arguments with remote credentials, no filter, no local repository. -/
def aRemote : Args := ⟨none, none, true, false⟩

/-- Remote data listing only the bare commit. -/
def rdBare : RemoteData := ⟨.ok [cBare], .ok [], .ok []⟩

/-- Arguments with only a local repository and no filter. -/
def aLocal : Args := ⟨none, none, false, true⟩

/-- Local data with one well-formed commit-log line and no reflog lines. -/
def ldLog : LocalData := ⟨.ok (str "abc|alice|a@x|2025-06-15|hi"), .ok []⟩

/-- The event parsed from the single commit-log line of `ldLog`. -/
def logRow0 : Row :=
  { source := some (str "local_commit")
    action_type := some (str "commit")
    user_name := some (str "alice")
    user_email := some (str "a@x")
    timestamp := some (str "2025-06-15")
    ref := some []
    commit_sha := some (str "abc")
    message := some (str "hi")
    url := some [] }

/-- Arguments with a one-month-back window and a local repository. -/
def aMonths : Args := ⟨some 1, none, false, true⟩

/-- Local data with one reflog line and no commit-log lines. -/
def ldReflog : LocalData := ⟨.ok [], .ok (str "abc123 checkout: moving from a to b")⟩

/-- With both bounds unset, `within_range` accepts every timestamp. -/
theorem wr_no_bounds (p : Parsers) (ts : Option Str) :
    within_range p ts none none = .ok true := by
  unfold within_range
  split
  · rfl
  · rfl

/-- With a bound set, a falsy timestamp is rejected. -/
theorem wr_falsy_bound (p : Parsers) (ts : Option Str) (s e : Option DT)
    (hts : isFalsy ts = true) (h : s.isSome ∨ e.isSome) :
    within_range p ts s e = .ok false := by
  unfold within_range
  rw [if_pos hts]
  cases s <;> cases e <;> simp_all

/-- With a parsed instant, `within_range` is exactly the inclusive
bound test. -/
theorem wr_parsed (p : Parsers) (ts : Str) (d : DT) (s e : Option DT)
    (hne : ts ≠ []) (hd : parse_date_any p ts = some d) :
    within_range p (some ts) s e = .ok (boundOK s e d) := by
  unfold within_range
  rw [if_neg (by simpa [isFalsy] using hne)]
  show startCheck (parse_date_any p ts) s e = _
  rw [hd]
  cases s with
  | none =>
    cases e with
    | none => rfl
    | some b =>
      show endCheck (some d) (some b) = _
      by_cases hb : b < d
      · have h2 : ¬d ≤ b := not_le.mpr hb
        simp [endCheck, boundOK, hb, h2]
      · have h2 : d ≤ b := not_lt.mp hb
        simp [endCheck, boundOK, hb, h2]
  | some a =>
    show (if d < a then Except.ok false else endCheck (some d) e) = _
    by_cases ha : d < a
    · have h2 : ¬a ≤ d := not_le.mpr ha
      simp [ha, h2, boundOK]
    · have h2 : a ≤ d := not_lt.mp ha
      cases e with
      | none => simp [ha, h2, endCheck, boundOK]
      | some b =>
        by_cases hb : b < d
        · have h3 : ¬d ≤ b := not_le.mpr hb
          simp [ha, h2, hb, h3, endCheck, boundOK]
        · have h3 : d ≤ b := not_lt.mp hb
          simp [ha, h2, hb, h3, endCheck, boundOK]

/-- The predicate `boundOK` spelled as a proposition. -/
theorem boundOK_iff (s e : Option DT) (d : DT) :
    boundOK s e d = true ↔ ((∀ a, s = some a → a ≤ d) ∧ (∀ b, e = some b → d ≤ b)) := by
  cases s <;> cases e <;> simp [boundOK]

/--
C4: for every timestamp input to `inRange`: with both bounds unset the
result is true (for the empty and for unparseable timestamps alike); with at
least one bound set, the empty timestamp is rejected.
-/
theorem within_range_unset_bounds_and_empty_ts (p : Parsers) :
    (∀ ts : Option Str, within_range p ts none none = .ok true)
    ∧ (∀ s e : Option DT, s.isSome ∨ e.isSome →
        within_range p (some []) s e = .ok false) := by
  refine ⟨fun ts => wr_no_bounds p ts, fun s e h => wr_falsy_bound p (some []) s e rfl h⟩

/-- Witness for C4 at concrete inputs. -/
theorem within_range_unset_bounds_and_empty_ts_witness :
    within_range pNone (some (str "garbage")) none none = .ok true
    ∧ ((some (0 : DT)).isSome ∨ (none : Option DT).isSome)
    ∧ within_range pNone (some []) (some 0) none = .ok false := by
  refine ⟨(within_range_unset_bounds_and_empty_ts pNone).1 (some (str "garbage")),
    Or.inl rfl,
    (within_range_unset_bounds_and_empty_ts pNone).2 (some 0) none (Or.inl rfl)⟩

/--
C5: for every timestamp string that parses to an instant `d`,
`inRange` returns true iff every set bound is satisfied inclusively
(`start ≤ d` and `d ≤ end`).
-/
theorem within_range_inclusive_bounds (p : Parsers) (ts : Str) (d : DT) (s e : Option DT)
    (hne : ts ≠ []) (hd : parse_date_any p ts = some d) :
    within_range p (some ts) s e = .ok (boundOK s e d)
    ∧ (boundOK s e d = true ↔ ((∀ a, s = some a → a ≤ d) ∧ (∀ b, e = some b → d ≤ b))) :=
  ⟨wr_parsed p ts d s e hne hd, boundOK_iff s e d⟩

/-- Witness for C5: `2025-06-15` against the bounds `2025-01-01` and
`2025-12-31`. -/
theorem within_range_inclusive_bounds_witness :
    (str "2025-06-15" ≠ [])
    ∧ parse_date_any pNone (str "2025-06-15") = some 20250615
    ∧ (within_range pNone (some (str "2025-06-15")) (some 20250101) (some 20251231)
        = .ok (boundOK (some 20250101) (some 20251231) 20250615)
      ∧ (boundOK (some 20250101) (some 20251231) 20250615 = true ↔
          ((∀ a, (some (20250101 : DT)) = some a → a ≤ 20250615)
            ∧ (∀ b, (some (20251231 : DT)) = some b → (20250615 : DT) ≤ b)))) := by
  refine ⟨by decide, by decide, ?_⟩
  exact within_range_inclusive_bounds pNone (str "2025-06-15") 20250615
    (some 20250101) (some 20251231) (by decide) (by decide)

/--
C2 (code bug): on a non-empty timestamp that fails to parse, with a bound
set, `within_range` raises `TypeError` (comparing `None` with a `datetime`)
instead of returning false: the internal `try/except` guards only
`parse_date_any`, which returns `None` rather than raising.
-/
theorem within_range_raises_on_unparseable :
    within_range pNone (some (str "not-a-date")) (some 20250101) none = .error ()
    ∧ within_range pNone (some (str "not-a-date")) none (some 20251231) = .error () := by
  constructor <;> rfl

/--
C3 counterexample: with the flexible parser available but failing on
`2025-01-02`, `parse_date_any` returns `None` even though the strict ISO
parse of the substituted text succeeds — refuting "returns null only when
both the flexible and the ISO parse fail".
-/
theorem parse_date_any_iso_fallback_cex :
    parse_date_any ⟨some ⟨fun _ => none, fun _ => none⟩, isoParseModel⟩ (str "2025-01-02") = none
    ∧ isoParseModel (subSlash (str "2025-01-02")) = some 20250102 := by
  constructor <;> rfl

/--
C3 (amended): when the flexible parser is available, `parse_date_any`
returns exactly the result of the flexible parser on the `/`-to-`-` substituted
text — `None` on its failure, with no ISO fallback; the strict ISO parse of
the substituted text is used only when the flexible parser is unavailable;
empty input gives `None`.
-/
theorem parse_date_any_flex_no_fallback (dp : DtParser) (iso : Str → Option DT) (s : Str) :
    parse_date_any ⟨some dp, iso⟩ s = (if s = [] then none else dp.parseDayfirst (subSlash s))
    ∧ parse_date_any ⟨none, iso⟩ s = (if s = [] then none else iso (subSlash s)) := by
  constructor <;> (unfold parse_date_any; split <;> rfl)

/-- The helper `splitFirst` finds the first separator: a separator-free prefix is
split off whole. -/
theorem splitFirst_append (sep : Char) (x rest : Str) (hx : sep ∉ x) :
    splitFirst sep (x ++ sep :: rest) = some (x, rest) := by
  induction x with
  | nil => simp [splitFirst]
  | cons c cs ih =>
    have hc : c ≠ sep := fun h => hx (h ▸ List.mem_cons_self c cs)
    have hcs : sep ∉ cs := fun h => hx (List.mem_cons_of_mem c h)
    simp [splitFirst, hc, ih hcs]

/-- A separator-free string has no first separator. -/
theorem splitFirst_none (sep : Char) (x : Str) (hx : sep ∉ x) :
    splitFirst sep x = none := by
  induction x with
  | nil => rfl
  | cons c cs ih =>
    have hc : c ≠ sep := fun h => hx (h ▸ List.mem_cons_self c cs)
    have hcs : sep ∉ cs := fun h => hx (List.mem_cons_of_mem c h)
    simp [splitFirst, hc, ih hcs]

/-- With budget left, `split` peels one separator-free field. -/
theorem pySplit_cons (sep : Char) (n : Nat) (x rest : Str) (hx : sep ∉ x) :
    pySplit sep (n + 1) (x ++ sep :: rest) = x :: pySplit sep n rest := by
  simp [pySplit, splitFirst_append sep x rest hx]

/--
C10: a commit-log line with more than four pipe separators is split at the
first four pipes only: the entire remainder `m` — pipes included — is
preserved unmodified as the `message` of the event, and the line yields an event
(it is neither dropped nor truncated).
-/
theorem git_log_line_message_preserved (a b c d m : Str)
    (ha : '|' ∉ a) (hb : '|' ∉ b) (hc : '|' ∉ c) (hd : '|' ∉ d) (hm : '|' ∈ m) :
    parseGitLogLine (a ++ '|' :: (b ++ '|' :: (c ++ '|' :: (d ++ '|' :: m))))
      = some { source := some (str "local_commit")
               action_type := some (str "commit")
               user_name := some b
               user_email := some c
               timestamp := some d
               ref := some []
               commit_sha := some a
               message := some m
               url := some [] } := by
  unfold parseGitLogLine
  rw [pySplit_cons '|' 3 a _ ha, pySplit_cons '|' 2 b _ hb,
    pySplit_cons '|' 1 c _ hc, pySplit_cons '|' 0 d _ hd]
  rfl

/-- Witness for C10: the line
`abc|alice|a@x|2025-01-01 00:00:00 +0000|fix: a|b` keeps `fix: a|b` whole. -/
theorem git_log_line_message_preserved_witness :
    ('|' ∉ str "abc") ∧ ('|' ∉ str "alice") ∧ ('|' ∉ str "a@x")
    ∧ ('|' ∉ str "2025-01-01 00:00:00 +0000") ∧ ('|' ∈ str "fix: a|b")
    ∧ parseGitLogLine (str "abc" ++ '|' :: (str "alice" ++ '|' :: (str "a@x" ++ '|' ::
        (str "2025-01-01 00:00:00 +0000" ++ '|' :: str "fix: a|b"))))
      = some { source := some (str "local_commit")
               action_type := some (str "commit")
               user_name := some (str "alice")
               user_email := some (str "a@x")
               timestamp := some (str "2025-01-01 00:00:00 +0000")
               ref := some []
               commit_sha := some (str "abc")
               message := some (str "fix: a|b")
               url := some [] } := by
  refine ⟨by decide, by decide, by decide, by decide, by decide, ?_⟩
  exact git_log_line_message_preserved (str "abc") (str "alice") (str "a@x")
    (str "2025-01-01 00:00:00 +0000") (str "fix: a|b")
    (by decide) (by decide) (by decide) (by decide) (by decide)

/-- The pagination loop over a trace of list pages whose last page has an
empty next-page header: one request per page, bodies concatenated after the
accumulator, in order. -/
theorem getLoop_pages {α β : Type} (ps : List (List β × Str)) (plast : List β)
    (acc : List β) (h : ∀ pr ∈ ps, pr.2 ≠ []) :
    getLoop ((ps.map (pageResp (α := α))) ++ [pageResp (plast, [])]) acc
      = some (.ok (.arr (acc ++ ((ps.map Prod.fst).flatten ++ plast)), ps.length + 1)) := by
  induction ps generalizing acc with
  | nil => simp [getLoop, pageResp]
  | cons pr rest ih =>
    obtain ⟨xs, hd⟩ := pr
    have hpr : hd ≠ [] := h (xs, hd) (List.mem_cons_self (xs, hd) rest)
    have hrest : ∀ q ∈ rest, q.2 ≠ [] := fun q hq => h q (List.mem_cons_of_mem (xs, hd) hq)
    have ih2 := ih (acc ++ xs) hrest
    simp only [List.map_cons, List.cons_append, getLoop, pageResp]
    rw [if_neg (by simp), if_neg hpr]
    simp only [List.append_eq] at ih2 ⊢
    simp only [pageResp] at ih2
    rw [ih2]
    simp [List.append_assoc]

/--
C7: for a trace of list-valued pages in which exactly the final page
carries an empty next-page header, `_get` issues exactly one request per page and
returns the concatenation of all page bodies in page order; and a
single-object JSON response is returned verbatim after one request, with no
further page fetches.
-/
theorem paginated_get_requests_and_concat {α β : Type}
    (ps : List (List β × Str)) (plast : List β) (h : ∀ pr ∈ ps, pr.2 ≠ []) :
    GitLabClient_get ((ps.map (pageResp (α := α))) ++ [pageResp (plast, [])])
      = some (.ok (.arr ((ps.map Prod.fst).flatten ++ plast), ps.length + 1))
    ∧ ∀ (d : α) (hdr : Str) (rest : List (Resp α β)),
        GitLabClient_get (⟨true, .obj d, hdr⟩ :: rest) = some (.ok (.obj d, 1)) := by
  constructor
  · have := getLoop_pages (α := α) ps plast [] h
    simpa [GitLabClient_get] using this
  · intro d hdr rest
    simp [GitLabClient_get, getLoop]

/-- Witness for C7: three pages `[1,2]`, `[3]`, `[4]` where only the last
header is empty give one request per page and `[1,2,3,4]`; a single-object
response is returned after one request. -/
theorem paginated_get_requests_and_concat_witness :
    (∀ pr ∈ [([1, 2], str "2"), ([3], str "3")], pr.2 ≠ ([] : Str))
    ∧ (GitLabClient_get (([([1, 2], str "2"), ([3], str "3")].map (pageResp (α := Nat)))
          ++ [pageResp ([4], [])])
        = some (.ok (.arr [1, 2, 3, 4], 3))
      ∧ ∀ (d : Nat) (hdr : Str) (rest : List (Resp Nat Nat)),
          GitLabClient_get (⟨true, .obj d, hdr⟩ :: rest) = some (.ok (.obj d, 1))) := by
  refine ⟨by decide, ?_⟩
  exact paginated_get_requests_and_concat [([1, 2], str "2"), ([3], str "3")] [4] (by decide)

/-- The header of the output file has no duplicate columns. -/
theorem csvKeys_nodup (rows : List CsvRow) : (csvKeys rows).Nodup :=
  ((List.perm_insertionSort _ _).nodup_iff).mpr (List.nodup_dedup _)

/-- The header is exactly the union of the keys of all rows. -/
theorem mem_csvKeys (rows : List CsvRow) (k : Str) :
    k ∈ csvKeys rows ↔ ∃ r ∈ rows, ∃ v, (k, v) ∈ r := by
  simp only [csvKeys, List.mem_insertionSort, List.mem_dedup, List.mem_flatten,
    List.mem_map]
  constructor
  · rintro ⟨l, ⟨r, hr, rfl⟩, hk⟩
    obtain ⟨⟨k2, v⟩, hp, hk2⟩ := List.mem_map.mp hk
    refine ⟨r, hr, v, ?_⟩
    rw [← show k2 = k from hk2]
    exact hp
  · rintro ⟨r, hr, v, hv⟩
    exact ⟨r.map Prod.fst, ⟨r, hr, rfl⟩, List.mem_map.mpr ⟨(k, v), hv, rfl⟩⟩

/-- Reading a column of a row written by projecting onto a duplicate-free
header recovers the projected value. -/
theorem readBack_map (hdr : List Str) (f : Str → Str) (k : Str)
    (hnd : hdr.Nodup) (hk : k ∈ hdr) :
    readBack hdr (hdr.map f) k = some (f k) := by
  induction hdr with
  | nil => cases hk
  | cons h hs ih =>
    by_cases hkh : h = k
    · simp [readBack, hkh]
    · have hk2 : k ∈ hs := by
        cases List.mem_cons.mp hk with
        | inl h2 => exact absurd h2.symm hkh
        | inr h2 => exact h2
      simp only [List.map_cons, readBack, if_neg hkh]
      exact ih (List.Nodup.of_cons hnd) hk2

/--
C8: writing a non-empty event list with `write_csv` and reading the file
back yields, for every original event and every column of the sorted key
union, exactly the value the event held there — the empty string when the
field is absent on that event.
-/
theorem write_csv_roundtrip (rows : List CsvRow) (hne : rows ≠ []) :
    write_csv rows = some (csvKeys rows, rows.map (writeRow (csvKeys rows)))
    ∧ (∀ k : Str, k ∈ csvKeys rows ↔ ∃ r ∈ rows, ∃ v, (k, v) ∈ r)
    ∧ (∀ r ∈ rows, ∀ k ∈ csvKeys rows,
        readBack (csvKeys rows) (writeRow (csvKeys rows) r) k
          = some ((pyGet r k).getD [])) := by
  refine ⟨by simp [write_csv, hne], fun k => mem_csvKeys rows k, ?_⟩
  intro r _ k hk
  exact readBack_map (csvKeys rows) (fun k2 => (pyGet r k2).getD []) k
    (csvKeys_nodup rows) hk

/-- Witness for C8: two events with different key sets round-trip, with the
empty string for the absent field. -/
theorem write_csv_roundtrip_witness :
    ([[(str "b", str "1")], [(str "a", str "x,y"), (str "b", str "")]] ≠ ([] : List CsvRow))
    ∧ (write_csv [[(str "b", str "1")], [(str "a", str "x,y"), (str "b", str "")]]
        = some (csvKeys [[(str "b", str "1")], [(str "a", str "x,y"), (str "b", str "")]],
            [[(str "b", str "1")], [(str "a", str "x,y"), (str "b", str "")]].map
              (writeRow (csvKeys [[(str "b", str "1")], [(str "a", str "x,y"), (str "b", str "")]])))
      ∧ (∀ k : Str,
          k ∈ csvKeys [[(str "b", str "1")], [(str "a", str "x,y"), (str "b", str "")]]
            ↔ ∃ r ∈ [[(str "b", str "1")], [(str "a", str "x,y"), (str "b", str "")]],
                ∃ v, (k, v) ∈ r)
      ∧ (∀ r ∈ [[(str "b", str "1")], [(str "a", str "x,y"), (str "b", str "")]],
          ∀ k ∈ csvKeys [[(str "b", str "1")], [(str "a", str "x,y"), (str "b", str "")]],
            readBack (csvKeys [[(str "b", str "1")], [(str "a", str "x,y"), (str "b", str "")]])
                (writeRow (csvKeys [[(str "b", str "1")], [(str "a", str "x,y"), (str "b", str "")]]) r) k
              = some ((pyGet r k).getD []))) := by
  refine ⟨by decide, ?_⟩
  exact write_csv_roundtrip [[(str "b", str "1")], [(str "a", str "x,y"), (str "b", str "")]]
    (by decide)

/-- Every row that a collection loop emits comes from one loop iteration. -/
theorem procList_mem {α : Type} (f : α → Except Unit (Option Row)) (xs : List α) (r : Row)
    (h : r ∈ (procList f xs).1) : ∃ x ∈ xs, f x = .ok (some r) := by
  induction xs with
  | nil => cases h
  | cons x xs ih =>
    cases hfx : f x with
    | error u => simp [procList, hfx] at h
    | ok o =>
      cases o with
      | none =>
        simp only [procList, hfx] at h
        obtain ⟨y, hy, hfy⟩ := ih h
        exact ⟨y, List.mem_cons_of_mem x hy, hfy⟩
      | some r2 =>
        simp only [procList, hfx] at h
        cases List.mem_cons.mp h with
        | inl he => exact ⟨x, List.mem_cons_self x xs, by rw [hfx, he]⟩
        | inr hm =>
          obtain ⟨y, hy, hfy⟩ := ih hm
          exact ⟨y, List.mem_cons_of_mem x hy, hfy⟩

/-- A loop whose every iteration skips emits nothing and raises nothing. -/
theorem procList_all_none {α : Type} (f : α → Except Unit (Option Row)) (xs : List α)
    (h : ∀ x ∈ xs, f x = .ok none) : procList f xs = ([], false) := by
  induction xs with
  | nil => rfl
  | cons x xs ih =>
    have hx := h x (List.mem_cons_self x xs)
    have hxs := ih (fun y hy => h y (List.mem_cons_of_mem x hy))
    simp [procList, hx, hxs]

/-- A loop that raises mid-way keeps exactly the rows appended before the
failing iteration (the source appends into the shared `rows` list in place)
and reports the caught exception. -/
theorem procList_abort {α : Type} (f : α → Except Unit (Option Row)) (xs ys : List α) (x : α)
    (h1 : ∀ z ∈ xs, f z ≠ .error ()) (h2 : f x = .error ()) :
    procList f (xs ++ x :: ys) = ((procList f xs).1, true) := by
  induction xs with
  | nil => simp [procList, h2]
  | cons z zs ih =>
    have hz := h1 z (List.mem_cons_self z zs)
    have ihz := ih (fun y hy => h1 y (List.mem_cons_of_mem z hy))
    cases hfz : f z with
    | error u => exact absurd (by rw [hfz]) hz
    | ok o =>
      cases o with
      | none => simpa [procList, hfz] using ihz
      | some r => simp [procList, hfz, ihz]

/-- Rows of a sub-step come from a successful fetch and its loop. -/
theorem stepOf_mem {α : Type} (f : α → Except Unit (Option Row))
    (exc : Except Unit (List α)) (r : Row) (h : r ∈ (stepOf f exc).1) :
    ∃ xs, exc = .ok xs ∧ r ∈ (procList f xs).1 := by
  cases exc with
  | error u => cases h
  | ok xs => exact ⟨xs, rfl, h⟩

/-- A kept commit iteration emits exactly the commit row. -/
theorem commitStep_shape (p : Parsers) (s e : Option DT) (c : RCommit) (r : Row)
    (h : commitStep p s e c = .ok (some r)) :
    r = commitRow (normalize_date p (pyOr c.created_at c.committed_date)) c := by
  simp only [commitStep] at h
  split at h
  · cases h
  · cases h
  · simp only [Except.ok.injEq, Option.some.injEq] at h
    exact h.symm

/-- A kept branch iteration emits exactly the branch row. -/
theorem branchStep_shape (p : Parsers) (s e : Option DT) (b : RBranch) (r : Row)
    (h : branchStep p s e b = .ok (some r)) :
    r = branchRow (normalize_date p (b.commit.getD emptyBranchCommit).committed_date) b
          (b.commit.getD emptyBranchCommit) := by
  simp only [branchStep] at h
  split at h
  · cases h
  · cases h
  · simp only [Except.ok.injEq, Option.some.injEq] at h
    exact h.symm

/-- A kept merge-request iteration emits exactly the merge-request row. -/
theorem mrStep_shape (p : Parsers) (s e : Option DT) (m : RMR) (r : Row)
    (h : mrStep p s e m = .ok (some r)) :
    r = mrRow (normalize_date p m.updated_at) m := by
  simp only [mrStep] at h
  split at h
  · cases h
  · cases h
  · simp only [Except.ok.injEq, Option.some.injEq] at h
    exact h.symm

/-- A kept local iteration emits the entry unchanged. -/
theorem localStep_shape (p : Parsers) (s e : Option DT) (r0 r : Row)
    (h : localStep p s e r0 = .ok (some r)) : r = r0 := by
  simp only [localStep] at h
  split at h
  · cases h
  · cases h
  · simp only [Except.ok.injEq, Option.some.injEq] at h
    exact h.symm

/-- Every parsed commit-log line yields a fully-string row. -/
theorem parseGitLogLine_shape (l : Str) (r : Row) (h : parseGitLogLine l = some r) :
    r.source = some (str "local_commit") ∧ allFields r := by
  simp only [parseGitLogLine] at h
  split at h
  · simp only [Option.some.injEq] at h
    subst h
    exact ⟨rfl, ⟨rfl, rfl, rfl, rfl, rfl⟩, rfl, rfl, rfl, rfl⟩
  · cases h

/-- Every reflog line yields a fully-string row with an empty timestamp. -/
theorem parseReflogLine_shape (l : Str) :
    (parseReflogLine l).source = some (str "local_reflog")
    ∧ (parseReflogLine l).timestamp = some []
    ∧ allFields (parseReflogLine l) := by
  exact ⟨rfl, rfl, ⟨rfl, rfl, rfl, rfl, rfl⟩, rfl, rfl, rfl, rfl⟩

/-- Rows of the remote-commits sub-step: source `gitlab_commit` and the five
defaulted fields set. -/
theorem stepCommits_rows (p : Parsers) (s e : Option DT) (exc : Except Unit (List RCommit))
    (r : Row) (h : r ∈ (stepOf (commitStep p s e) exc).1) :
    r.source = some (str "gitlab_commit") ∧ fieldsOk r := by
  obtain ⟨xs, -, hm⟩ := stepOf_mem _ exc r h
  obtain ⟨c, -, hc⟩ := procList_mem _ xs r hm
  rw [commitStep_shape p s e c r hc]
  exact ⟨rfl, rfl, rfl, rfl, rfl, rfl⟩

/-- Rows of the remote-branches sub-step. -/
theorem stepBranches_rows (p : Parsers) (s e : Option DT) (exc : Except Unit (List RBranch))
    (r : Row) (h : r ∈ (stepOf (branchStep p s e) exc).1) :
    r.source = some (str "gitlab_branch") ∧ fieldsOk r := by
  obtain ⟨xs, -, hm⟩ := stepOf_mem _ exc r h
  obtain ⟨b, -, hb⟩ := procList_mem _ xs r hm
  rw [branchStep_shape p s e b r hb]
  exact ⟨rfl, rfl, rfl, rfl, rfl, rfl⟩

/-- Rows of the merge-requests sub-step. -/
theorem stepMRs_rows (p : Parsers) (s e : Option DT) (exc : Except Unit (List RMR))
    (r : Row) (h : r ∈ (stepOf (mrStep p s e) exc).1) :
    r.source = some (str "gitlab_merge_request") ∧ fieldsOk r := by
  obtain ⟨xs, -, hm⟩ := stepOf_mem _ exc r h
  obtain ⟨m, -, hmr⟩ := procList_mem _ xs r hm
  rw [mrStep_shape p s e m r hmr]
  exact ⟨rfl, rfl, rfl, rfl, rfl, rfl⟩

/-- Rows of the local commit-log sub-step. -/
theorem stepGitLog_rows (p : Parsers) (s e : Option DT) (exc : Except Unit Str)
    (r : Row) (h : r ∈ (stepOf (localStep p s e) (exc.map parse_git_log)).1) :
    r.source = some (str "local_commit") ∧ allFields r := by
  obtain ⟨xs, hxs, hm⟩ := stepOf_mem _ (exc.map parse_git_log) r h
  obtain ⟨r0, hr0, hk⟩ := procList_mem _ xs r hm
  rw [localStep_shape p s e r0 r hk]
  cases exc with
  | error u => cases hxs
  | ok out =>
    simp only [Except.map, Except.ok.injEq] at hxs
    subst hxs
    obtain ⟨l, -, hl⟩ := List.mem_filterMap.mp hr0
    exact parseGitLogLine_shape l r0 hl

/-- Rows of the local reflog sub-step. -/
theorem stepReflog_rows (p : Parsers) (s e : Option DT) (exc : Except Unit Str)
    (r : Row) (h : r ∈ (stepOf (localStep p s e) (exc.map parse_reflog)).1) :
    r.source = some (str "local_reflog") ∧ r.timestamp = some [] ∧ allFields r := by
  obtain ⟨xs, hxs, hm⟩ := stepOf_mem _ (exc.map parse_reflog) r h
  obtain ⟨r0, hr0, hk⟩ := procList_mem _ xs r hm
  rw [localStep_shape p s e r0 r hk]
  cases exc with
  | error u => cases hxs
  | ok out =>
    simp only [Except.map, Except.ok.injEq] at hxs
    subst hxs
    obtain ⟨l, -, hl⟩ := List.mem_map.mp hr0
    rw [← hl]
    exact parseReflogLine_shape l

/-- With a bound set, the reflog sub-step contributes nothing: every reflog
row carries an empty timestamp, which an active filter rejects. -/
theorem stepReflog_empty (p : Parsers) (s e : Option DT) (exc : Except Unit Str)
    (h : s.isSome = true ∨ e.isSome = true) :
    (stepOf (localStep p s e) (exc.map parse_reflog)).1 = [] := by
  cases exc with
  | error u => rfl
  | ok out =>
    show (procList (localStep p s e) (parse_reflog out)).1 = []
    rw [procList_all_none]
    intro r0 hr0
    obtain ⟨l, -, hl⟩ := List.mem_map.mp hr0
    have hts : r0.timestamp = some [] := by rw [← hl]; exact (parseReflogLine_shape l).2.1
    simp only [localStep, hts]
    rw [wr_falsy_bound p (some []) s e rfl (by simpa using h)]

/--
C1 (amended): every sub-step exception is caught inside the collector (the
model is total), and all other sub-steps still run and contribute their
events — a sub-step whose fetch raises contributes exactly zero events and
leaves the rest of the output unchanged; but a sub-step that raises mid-loop
(e.g. a `TypeError` from `within_range` on an unparseable timestamp under an
active bound) keeps the events it appended before the exception, because
the loop appends into the shared `rows` list in place.
-/
theorem collector_isolation_amended (p : Parsers) (now : DT) (a : Args)
    (rd : RemoteData) (ld : LocalData) :
    (collect_data p now a { rd with commits := .error () } ld
      = collect_data p now a { rd with commits := .ok [] } ld)
    ∧ (collect_data p now a { rd with branches := .error () } ld
      = collect_data p now a { rd with branches := .ok [] } ld)
    ∧ (collect_data p now a { rd with mrs := .error () } ld
      = collect_data p now a { rd with mrs := .ok [] } ld)
    ∧ (collect_data p now a rd { ld with gitLogOut := .error () }
      = collect_data p now a rd { ld with gitLogOut := .ok [] })
    ∧ (collect_data p now a rd { ld with reflogOut := .error () }
      = collect_data p now a rd { ld with reflogOut := .ok [] })
    ∧ ∀ (α : Type) (f : α → Except Unit (Option Row)) (xs ys : List α) (x : α),
        (∀ z ∈ xs, f z ≠ .error ()) → f x = .error () →
        procList f (xs ++ x :: ys) = ((procList f xs).1, true) :=
  ⟨rfl, rfl, rfl, rfl, rfl, fun _ f xs ys x h1 h2 => procList_abort f xs ys x h1 h2⟩

/--
C1 counterexample: with an active date range and a commits listing of one
parseable and one unparseable commit, the commits sub-step raises mid-loop
(flag set) yet its contribution to the returned list is one event, not
zero — refuting "the failing sub-step contributes zero events".
-/
theorem collector_zero_contribution_cex :
    collect_data pNone 0 aRange rdCex ldEmpty = [commitRow (str "2025-06-15") cGood]
    ∧ (stepOf (commitStep pNone (some 20250101) (some 20251231)) rdCex.commits).2 = true
    ∧ computeWindow pNone 0 aRange = (some 20250101, some 20251231) := by
  refine ⟨by decide, by decide, by decide⟩

/-- Witness for C1 at a concrete failing loop and a concrete erroring
fetch. -/
theorem collector_isolation_amended_witness :
    (∀ z ∈ [cGood], commitStep pNone (some 20250101) (some 20251231) z ≠ .error ())
    ∧ commitStep pNone (some 20250101) (some 20251231) cBad = .error ()
    ∧ procList (commitStep pNone (some 20250101) (some 20251231)) ([cGood] ++ cBad :: [])
        = ((procList (commitStep pNone (some 20250101) (some 20251231)) [cGood]).1, true)
    ∧ collect_data pNone 0 aRange { rdCex with commits := .error () } ldEmpty
        = collect_data pNone 0 aRange { rdCex with commits := .ok [] } ldEmpty := by
  refine ⟨by decide, by decide, ?_, ?_⟩
  · exact (collector_isolation_amended pNone 0 aRange rdCex ldEmpty).2.2.2.2.2 RCommit
      (commitStep pNone (some 20250101) (some 20251231)) [cGood] [] cBad
      (by decide) (by decide)
  · exact (collector_isolation_amended pNone 0 aRange rdCex ldEmpty).1

/--
C6 (amended): every event carries all nine fields (the row shape is fixed:
each append site writes all nine keys); the fields `source`, `action_type`,
`timestamp`, `message` and `url` always hold strings; both local sources
produce rows whose nine fields all hold strings; but remote fields read with
`.get` and no default (`user_name`, `user_email`, `ref`, `commit_sha`) hold
`None` — not the empty string — when the remote data lacks them.
-/
theorem collector_fields_amended (p : Parsers) (now : DT) (a : Args)
    (rd : RemoteData) (ld : LocalData) :
    ∀ r ∈ collect_data p now a rd ld,
      fieldsOk r
      ∧ ((r.source = some (str "local_commit") ∨ r.source = some (str "local_reflog")) →
          allFields r) := by
  intro r h
  simp only [collect_data] at h
  rcases List.mem_append.mp h with hrem | hloc
  · by_cases hr : a.has_remote
    · rw [if_pos hr] at hrem
      rcases List.mem_append.mp hrem with hcb | hmr
      · rcases List.mem_append.mp hcb with hc | hb
        · obtain ⟨hsrc, hfo⟩ := stepCommits_rows _ _ _ _ r hc
          refine ⟨hfo, fun hl => absurd hl ?_⟩
          rw [hsrc]
          decide
        · obtain ⟨hsrc, hfo⟩ := stepBranches_rows _ _ _ _ r hb
          refine ⟨hfo, fun hl => absurd hl ?_⟩
          rw [hsrc]
          decide
      · obtain ⟨hsrc, hfo⟩ := stepMRs_rows _ _ _ _ r hmr
        refine ⟨hfo, fun hl => absurd hl ?_⟩
        rw [hsrc]
        decide
    · rw [if_neg hr] at hrem
      cases hrem
  · by_cases hp : a.repo_path
    · rw [if_pos hp] at hloc
      rcases List.mem_append.mp hloc with hg | hrf
      · obtain ⟨hsrc, haf⟩ := stepGitLog_rows _ _ _ _ r hg
        exact ⟨haf.1, fun _ => haf⟩
      · obtain ⟨hsrc, -, haf⟩ := stepReflog_rows _ _ _ _ r hrf
        exact ⟨haf.1, fun _ => haf⟩
    · rw [if_neg hp] at hloc
      cases hloc

/--
C6 counterexample: a remote commit without an `author_name` key produces an
event whose `user_name` field is `None` (null), not the empty string —
refuting "every field whose data is missing holds the empty string".
-/
theorem collector_null_field_cex :
    collect_data pNone 0 aRemote rdBare ldEmpty = [commitRow [] cBare]
    ∧ (commitRow [] cBare).user_name = none
    ∧ (commitRow [] cBare).commit_sha = none := by
  refine ⟨by decide, rfl, rfl⟩

/-- Witness for C6 at a concrete local-commit event. -/
theorem collector_fields_amended_witness :
    logRow0 ∈ collect_data pNone 0 aLocal rdBare ldLog
    ∧ (fieldsOk logRow0
      ∧ ((logRow0.source = some (str "local_commit")
            ∨ logRow0.source = some (str "local_reflog")) → allFields logRow0)) :=
  ⟨by decide, collector_fields_amended pNone 0 aLocal rdBare ldLog logRow0 (by decide)⟩

/--
C9: whenever the computed filter window has at least one bound set (a
months-back window or a parsed explicit range), the local reflog sub-step
contributes zero events — every reflog event is built with an empty
timestamp, and an empty timestamp is excluded under any active bound — so
no event of the whole run has source `local_reflog`.
-/
theorem reflog_zero_under_active_filter (p : Parsers) (now : DT) (a : Args)
    (rd : RemoteData) (ld : LocalData)
    (h : (computeWindow p now a).1.isSome = true ∨ (computeWindow p now a).2.isSome = true) :
    (stepOf (localStep p (computeWindow p now a).1 (computeWindow p now a).2)
        (ld.reflogOut.map parse_reflog)).1 = []
    ∧ ∀ r ∈ collect_data p now a rd ld, r.source ≠ some (str "local_reflog") := by
  refine ⟨stepReflog_empty p _ _ ld.reflogOut h, ?_⟩
  intro r hr
  simp only [collect_data] at hr
  rcases List.mem_append.mp hr with hrem | hloc
  · by_cases hrm : a.has_remote
    · rw [if_pos hrm] at hrem
      rcases List.mem_append.mp hrem with hcb | hmr
      · rcases List.mem_append.mp hcb with hc | hb
        · rw [(stepCommits_rows _ _ _ _ r hc).1]
          decide
        · rw [(stepBranches_rows _ _ _ _ r hb).1]
          decide
      · rw [(stepMRs_rows _ _ _ _ r hmr).1]
        decide
    · rw [if_neg hrm] at hrem
      cases hrem
  · by_cases hp : a.repo_path
    · rw [if_pos hp] at hloc
      rcases List.mem_append.mp hloc with hg | hrf
      · rw [(stepGitLog_rows _ _ _ _ r hg).1]
        decide
      · rw [stepReflog_empty p _ _ ld.reflogOut h] at hrf
        cases hrf
    · rw [if_neg hp] at hloc
      cases hloc

/-- Witness for C9 at a concrete months-back run. -/
theorem reflog_zero_under_active_filter_witness :
    ((computeWindow pNone 100 aMonths).1.isSome = true
      ∨ (computeWindow pNone 100 aMonths).2.isSome = true)
    ∧ ((stepOf (localStep pNone (computeWindow pNone 100 aMonths).1
          (computeWindow pNone 100 aMonths).2) (ldReflog.reflogOut.map parse_reflog)).1 = []
      ∧ ∀ r ∈ collect_data pNone 100 aMonths rdBare ldReflog,
          r.source ≠ some (str "local_reflog")) :=
  ⟨by decide, reflog_zero_under_active_filter pNone 100 aMonths rdBare ldReflog (by decide)⟩

end GitLabAudit
